import Mathlib

/-!
Verification of the IPv4 address-allocation engine of Cray-HPE/csm-common
(`pkg/csi/network.go`), shallowly embedded in Lean 4.

IPv4 addresses are modelled as natural numbers (the 32-bit integer value of
the dotted quad), CIDR blocks as a base address plus a prefix length.  The
`ipam` helper package (`Add`, `Broadcast`, `Contains`, `NetIPInSlice`,
`Free`) is imported by `network.go` but its source is not part of this
tree, so it is modelled from the specification, §4.1 "Address Arithmetic"
and §4.2 "Free-Block Search".  Everything else is translated directly from
`pkg/csi/network.go`.
-/

namespace CsmCommon

/-- A CIDR block: base address and prefix length (models Go `net.IPNet`,
with the mask represented by its prefix length, as `mask.Size()` does). -/
structure IPNet where
  ip : Nat
  maskLen : Nat
deriving DecidableEq, Repr

namespace ipam

/-- Modelled from the spec: `Add(ip, n)` returns the address `n` positions
after `ip` in address-space order; `n` may be negative (§4.1).  The ipam
package is not under src/.  The spec declares behavior past the ends of the
address family's range out of scope, so the model uses exact integer
arithmetic (negative results clamp at zero). -/
def Add (ip : Nat) (n : Int) : Nat := ((ip : Int) + n).toNat

/-- Number of addresses in a block with the given prefix length. -/
def blockSize (maskLen : Nat) : Nat := 2 ^ (32 - maskLen)

/-- Clear the host bits of `ip` under a mask of the given prefix length
(bitwise AND with the mask). -/
def maskAddr (ip maskLen : Nat) : Nat := ip / blockSize maskLen * blockSize maskLen

/-- Modelled from the spec: `Broadcast(block)` returns the last address of
the block — the base address OR'd with the inverted mask (§4.1). -/
def Broadcast (b : IPNet) : Nat := b.ip ||| (blockSize b.maskLen - 1)

/-- Modelled from the spec: `Contains(outer, inner)` is true iff `inner`'s
network address, masked by `outer`'s mask, equals `outer`'s network
address, and `inner`'s prefix length is at least `outer`'s (§4.1). -/
def Contains (outer inner : IPNet) : Bool :=
  (maskAddr inner.ip outer.maskLen == maskAddr outer.ip outer.maskLen)
    && decide (outer.maskLen ≤ inner.maskLen)

/-- Modelled from the spec: `AddressIn`/`NetIPInSlice` returns the count of
`a` within an unordered list of addresses; callers use it only as a
membership test, via `> 0` (§4.1). -/
def NetIPInSlice (a : Nat) (l : List Nat) : Nat := l.count a

/-- Two blocks overlap (partially or fully): their address ranges
intersect (§4.2). -/
def Overlaps (a b : IPNet) : Bool :=
  decide (a.ip ≤ Broadcast b) && decide (b.ip ≤ Broadcast a)

/-- Candidate scan of the free-block search (§4.2): step the candidate base
forward by the candidate block's size, rejecting candidates that overlap an
allocated sibling; fail once the candidate is no longer contained in the
parent.  The fuel only bounds the recursion; a parent block holds at most
`blockSize parent.maskLen` candidates, so the fuel used by `Free` below is
never exhausted before the contained-in-parent check fails. -/
def freeAux (parent : IPNet) (maskLen : Nat) (allocated : List IPNet) :
    Nat → Nat → Option IPNet
  | 0, _ => none
  | fuel + 1, base =>
    if Contains parent ⟨base, maskLen⟩ then
      if allocated.any (fun s => Overlaps ⟨base, maskLen⟩ s) then
        freeAux parent maskLen allocated fuel (base + blockSize maskLen)
      else
        some ⟨base, maskLen⟩
    else
      none

/-- Modelled from the spec: `Free(parent, desiredMask, allocatedSiblings)`
returns the first candidate block of the desired size, stepping from the
parent's network address by the candidate size, that is contained in the
parent and overlaps no allocated sibling; errors (`none`) when the search
runs past the end of the parent (§4.2). -/
def Free (parent : IPNet) (maskLen : Nat) (allocated : List IPNet) : Option IPNet :=
  freeAux parent maskLen allocated (blockSize parent.maskLen + 1) parent.ip

end ipam

/-- IPReservation is a type for managing IP Reservations. -/
structure IPReservation where
  IPAddress : Nat
  Name : String
  Comment : String
  Aliases : List String
deriving DecidableEq, Repr

/-- IPV4Subnet is a type for managing IPv4 Subnets.  `net.IP` fields are
modelled as `Nat` (0 standing for the zero value). -/
structure IPV4Subnet where
  FullName : String
  CIDR : IPNet
  IPReservations : List IPReservation
  Name : String
  NetName : String
  VlanID : Int
  Comment : String
  Gateway : Nat
  SupernetRouter : Nat
  DNSServer : Nat
  DHCPStart : Nat
  DHCPEnd : Nat
deriving DecidableEq, Repr

/-- The Go zero value `IPV4Subnet{}`. -/
def IPV4Subnet.empty : IPV4Subnet :=
  { FullName := "", CIDR := ⟨0, 0⟩, IPReservations := [], Name := "", NetName := ""
    VlanID := 0, Comment := "", Gateway := 0, SupernetRouter := 0, DNSServer := 0
    DHCPStart := 0, DHCPEnd := 0 }

/-- IPV4Network is a type for managing IPv4 Networks.  In the source the
CIDR is stored as a string and parsed with `net.ParseCIDR` at each use; the
model stores the parsed block and applies `parseCIDR` (the masking that
`net.ParseCIDR` performs) at the same use sites. -/
structure IPV4Network where
  FullName : String
  CIDR : IPNet
  Subnets : List IPV4Subnet
  Name : String
  VlanRange : List Int
  MTU : Int
  NetType : String
  Comment : String
deriving DecidableEq, Repr

/-- Models `net.ParseCIDR`'s canonicalization: the returned network's base
address is the input address masked by the prefix. -/
def parseCIDR (n : IPNet) : IPNet := ⟨ipam.maskAddr n.ip n.maskLen, n.maskLen⟩

/-- AllocatedSubnets returns a list of the allocated subnets. -/
def IPV4Network.AllocatedSubnets (iNet : IPV4Network) : List IPNet :=
  iNet.Subnets.map (fun v => v.CIDR)

/-- AddSubnetbyCIDR allocates a new subnet.  The Go function returns the
appended subnet pointer together with an error; the model returns the
subnet (`none` on error) together with the updated network. -/
def IPV4Network.AddSubnetbyCIDR (iNet : IPV4Network) (desiredNet : IPNet)
    (name : String) (vlanID : Int) : Option IPV4Subnet × IPV4Network :=
  let myNet := parseCIDR iNet.CIDR
  if ipam.Contains myNet desiredNet then
    let sub : IPV4Subnet :=
      { IPV4Subnet.empty with
          CIDR := desiredNet, Name := name
          Gateway := ipam.Add desiredNet.ip 1, VlanID := vlanID }
    (some sub, { iNet with Subnets := iNet.Subnets ++ [sub] })
  else
    (none, iNet)

/-- AddSubnet allocates a new subnet (via the free-block search). -/
def IPV4Network.AddSubnet (iNet : IPV4Network) (maskLen : Nat)
    (name : String) (vlanID : Int) : Option IPV4Subnet × IPV4Network :=
  let myNet := parseCIDR iNet.CIDR
  match ipam.Free myNet maskLen iNet.AllocatedSubnets with
  | none => (none, iNet)
  | some newSubnet =>
    let sub : IPV4Subnet :=
      { IPV4Subnet.empty with
          CIDR := newSubnet, Name := name, NetName := iNet.Name
          Gateway := ipam.Add newSubnet.ip 1, VlanID := vlanID }
    (some sub, { iNet with Subnets := iNet.Subnets ++ [sub] })

/-- The loop of AddBiggestSubnet: Go's `for i := maskSize; i < 29; i++`,
with the remaining iteration count `29 - i` made explicit as fuel. -/
def addBiggestLoop (name : String) (vlanID : Int) :
    IPV4Network → Nat → Nat → Option IPV4Subnet × IPV4Network
  | iNet, _, 0 => (none, iNet)
  | iNet, i, fuel + 1 =>
    match iNet.AddSubnet i name vlanID with
    | (some sub, iNet') => (some sub, iNet')
    | (none, _) => addBiggestLoop name vlanID iNet (i + 1) fuel

/-- AddBiggestSubnet allocates the largest subnet possible within the
requested network and mask: it tries prefix lengths `i` with
`maskSize ≤ i < 29` in increasing order and errors when none succeeds
(its Go error text reads "tried from /maskSize to /29"). -/
def IPV4Network.AddBiggestSubnet (iNet : IPV4Network) (maskSize : Nat)
    (name : String) (vlanID : Int) : Option IPV4Subnet × IPV4Network :=
  addBiggestLoop name vlanID iNet maskSize (29 - maskSize)

/-- The error outcomes of LookUpSubnet ("subnet not found" and
"found %v subnets instead of just one"). -/
inductive LookUpError where
  | notFound : LookUpError
  | ambiguous : Nat → LookUpError
deriving DecidableEq, Repr

/-- LookUpSubnet returns a subnet by name: the zero subnet plus a not-found
error when the network has no subnets or no subnet matches, the unique
match with no error, or the first of several matches together with an
ambiguity error carrying the match count. -/
def IPV4Network.LookUpSubnet (iNet : IPV4Network) (name : String) :
    IPV4Subnet × Option LookUpError :=
  if iNet.Subnets.length = 0 then
    (IPV4Subnet.empty, some LookUpError.notFound)
  else
    match iNet.Subnets.filter (fun v => v.Name == name) with
    | [] => (IPV4Subnet.empty, some LookUpError.notFound)
    | f :: rest =>
      if rest.length = 0 then (f, none)
      else (f, some (LookUpError.ambiguous (rest.length + 1)))

/-- Models Go `strings.EqualFold`: case-folded equality (exact for the
ASCII names this code handles, folding each character). -/
def eqFold (a b : String) : Bool := a.data.map Char.toLower == b.data.map Char.toLower

/-- SubnetbyName returns a copy of the first subnet whose name matches
case-insensitively, or a blank subnet if it doesn't exist. -/
def IPV4Network.SubnetbyName (iNet : IPV4Network) (name : String) : IPV4Subnet :=
  match iNet.Subnets.find? (fun v => eqFold v.Name name) with
  | some v => v
  | none => IPV4Subnet.empty

/-- ReservedIPs returns a list of IPs already reserved within the subnet. -/
def IPV4Subnet.ReservedIPs (iSubnet : IPV4Subnet) : List Nat :=
  iSubnet.IPReservations.map (fun v => v.IPAddress)

/-- TotalIPAddresses returns the number of ip addresses in a subnet:
Go `2 << uint(31-maskSize)`.  For maskSize > 31 the signed difference
converted to uint makes the shift oversized, which Go defines as 0. -/
def IPV4Subnet.TotalIPAddresses (iSubnet : IPV4Subnet) : Nat :=
  if iSubnet.CIDR.maskLen ≤ 31 then 2 <<< (31 - iSubnet.CIDR.maskLen) else 0

/-- UsableHostAddresses returns the number of usable ip addresses in a
subnet. -/
def IPV4Subnet.UsableHostAddresses (iSubnet : IPV4Subnet) : Nat :=
  if iSubnet.CIDR.maskLen = 32 then 1
  else if iSubnet.CIDR.maskLen = 31 then 2
  else iSubnet.TotalIPAddresses - 2

/-- The DHCPStart-adjustment loop of UpdateDHCPRange:
`for NetIPInSlice(ip, reserved) > 0 { DHCPStart = Add(ip,2); ip = Add(ip,1) }`,
returning the final (DHCPStart, ip).  Each iteration requires the current
`ip` to occur in `reserved` and the visited `ip`s are distinct, so at most
`reserved.length` iterations run; the fuel used by `UpdateDHCPRange`
(`reserved.length + 1`) is therefore never exhausted. -/
def dhcpLoop (reserved : List Nat) : Nat → Nat → Nat → Nat × Nat
  | 0, dhcpStart, ip => (dhcpStart, ip)
  | fuel + 1, dhcpStart, ip =>
    if ipam.NetIPInSlice ip reserved > 0 then
      dhcpLoop reserved fuel (ipam.Add ip 2) (ipam.Add ip 1)
    else
      (dhcpStart, ip)

/-- UpdateDHCPRange resets the DHCPStart to exclude all IPReservations.
The Go function `log.Fatalf`s (kills the process) when there are more
reservations than usable addresses; the model returns `none` there. -/
def IPV4Subnet.UpdateDHCPRange (iSubnet : IPV4Subnet) (applySupernetHack : Bool) :
    Option IPV4Subnet :=
  let myReservedIPs := iSubnet.ReservedIPs
  if myReservedIPs.length > iSubnet.UsableHostAddresses then none
  else
    let ip := ipam.Add iSubnet.CIDR.ip (myReservedIPs.length + 2 : Int)
    let pr := dhcpLoop myReservedIPs (myReservedIPs.length + 1) ip ip
    some { iSubnet with
      DHCPStart := pr.1
      DHCPEnd :=
        if applySupernetHack then ipam.Add pr.1 200
        else ipam.Add (ipam.Broadcast iSubnet.CIDR) (-1) }

/-- AddReservationWithPin adds a new IPv4 reservation to the subnet with
the last octet pinned.  Both source branches (4-byte base and 16-byte
IPv4-mapped base, `pin` a uint8) build the address from the top three
bytes of the subnet's IPv4 base address and the pinned low byte, which on
the integer representation is `base / 256 * 256 + pin`.  The Go function
returns the appended reservation (the last list entry); the model returns
the updated subnet. -/
def IPV4Subnet.AddReservationWithPin (iSubnet : IPV4Subnet)
    (name comment : String) (pin : Nat) : IPV4Subnet :=
  let newIP := iSubnet.CIDR.ip / 256 * 256 + pin % 256
  { iSubnet with IPReservations := iSubnet.IPReservations ++
      [{ IPAddress := newIP, Name := name, Comment := comment
         Aliases := comment.splitOn "," }] }

/-- The collision scan of AddReservation: a single pass over the reserved
addresses in list order, bumping the candidate by one whenever it equals
the entry being scanned.  (The enclosing Go `for { ... }` loop is executed
exactly once: its body ends in an unconditional `return`.) -/
def reservationScan (reserved : List Nat) (t : Nat) : Nat :=
  reserved.foldl (fun t v => if t = v then ipam.Add t 1 else t) t

/-- AddReservation adds a new IP reservation to the subnet, starting the
candidate address at offset 2 from the subnet base. -/
def IPV4Subnet.AddReservation (iSubnet : IPV4Subnet) (name comment : String) :
    IPV4Subnet :=
  let tempIP := reservationScan iSubnet.ReservedIPs (ipam.Add iSubnet.CIDR.ip 2)
  { iSubnet with IPReservations := iSubnet.IPReservations ++
      [{ IPAddress := tempIP, Name := name, Comment := comment, Aliases := [] }] }

/-- A batch of AddReservation calls, in order. -/
def addReservations (s : IPV4Subnet) (l : List (String × String)) : IPV4Subnet :=
  l.foldl (fun acc nc => acc.AddReservation nc.1 nc.2) s

/-! Concrete instances used by the claim theorems.
`167772160 = 10.0.0.0`, `167772416 = 10.0.1.0`, `167772672 = 10.0.2.0`,
`184549376 = 11.0.0.0`. -/

/-- An empty `10.0.0.0/24` subnet. -/
def subnet24 : IPV4Subnet := { IPV4Subnet.empty with CIDR := ⟨167772160, 24⟩ }

/-- `10.0.0.0/24` after pinning suffixes 3 and then 2: its reservation list
is `[10.0.0.3, 10.0.0.2]`, out of address order. -/
def pinnedSubnet : IPV4Subnet :=
  (subnet24.AddReservationWithPin "p3" "" 3).AddReservationWithPin "p2" "" 2

/-- `10.0.0.0/24` with reservations at `10.0.0.2` and `10.0.0.4`, in
ascending list order. -/
def sortedSubnet : IPV4Subnet := { subnet24 with
  IPReservations := [⟨167772162, "g", "", []⟩, ⟨167772164, "h", "", []⟩] }

/-- `10.0.0.0/24` with reservations at `10.0.0.4` and `10.0.0.6`: the first
address past the reserved run (`10.0.0.4`) is reserved, and so is the
address two past it. -/
def dhcpSubnet : IPV4Subnet := { subnet24 with
  IPReservations := [⟨167772164, "r1", "", []⟩, ⟨167772166, "r2", "", []⟩] }

/-- An empty `10.0.0.0/16` network. -/
def net16 : IPV4Network :=
  { FullName := "", CIDR := ⟨167772160, 16⟩, Subnets := [], Name := "mgmt"
    VlanRange := [], MTU := 0, NetType := "", Comment := "" }

/-- An empty `10.0.0.0/29` network. -/
def net29 : IPV4Network := { net16 with CIDR := ⟨167772160, 29⟩, Name := "tiny" }

/-- First, second and third sequential `/24` allocations in `net16`. -/
def c4step1 : Option IPV4Subnet × IPV4Network := net16.AddSubnet 24 "one" 0

/-- Second sequential `/24` allocation in `net16`. -/
def c4step2 : Option IPV4Subnet × IPV4Network := c4step1.2.AddSubnet 24 "two" 0

/-- Third sequential `/24` allocation in `net16`. -/
def c4step3 : Option IPV4Subnet × IPV4Network := c4step2.2.AddSubnet 24 "three" 0

/-- The result of `subnet24.UpdateDHCPRange true`. -/
def hackResult : IPV4Subnet :=
  { subnet24 with DHCPStart := 167772162, DHCPEnd := 167772362 }

/-- A subnet named `A` at `10.0.0.0/24`. -/
def subA : IPV4Subnet := { IPV4Subnet.empty with Name := "A", CIDR := ⟨167772160, 24⟩ }

/-- A second subnet also named `A`, at `10.0.1.0/24`. -/
def subA2 : IPV4Subnet := { IPV4Subnet.empty with Name := "A", CIDR := ⟨167772416, 24⟩ }

/-- A subnet named `B`. -/
def subB : IPV4Subnet := { IPV4Subnet.empty with Name := "B" }

/-- A network holding exactly one subnet named `A`. -/
def netOneA : IPV4Network := { net16 with Subnets := [subA, subB] }

/-- A network holding two subnets named `A`. -/
def netTwoA : IPV4Network := { net16 with Subnets := [subA, subB, subA2] }

/-- A subnet named `NMN` (upper case). -/
def c10sub : IPV4Subnet := { IPV4Subnet.empty with Name := "NMN", CIDR := ⟨167772160, 24⟩ }

/-- A network whose only subnet is named `NMN`. -/
def c10net : IPV4Network := { net16 with Subnets := [c10sub] }

/-! Helper lemmas. -/

/-- `ipam.Add` with offset 1 is plain successor. -/
theorem ipam.Add_one (ip : Nat) : ipam.Add ip 1 = ip + 1 := by
  unfold ipam.Add; omega

/-- `ipam.Add` with offset 2 is plain addition. -/
theorem ipam.Add_two (ip : Nat) : ipam.Add ip 2 = ip + 2 := by
  unfold ipam.Add; omega

/-- `ipam.Add` with offset 200 is plain addition. -/
theorem ipam.Add_200 (ip : Nat) : ipam.Add ip 200 = ip + 200 := by
  unfold ipam.Add; omega

/-- Scanning an empty reservation list leaves the candidate unchanged. -/
theorem reservationScan_nil (t : Nat) : reservationScan [] t = t := rfl

/-- One step of the reservation scan. -/
theorem reservationScan_cons (v : Nat) (l : List Nat) (t : Nat) :
    reservationScan (v :: l) t = reservationScan l (if t = v then t + 1 else t) := by
  unfold reservationScan
  simp [ipam.Add_one]

/-- The reservation scan never moves the candidate down. -/
theorem reservationScan_ge (l : List Nat) : ∀ t, t ≤ reservationScan l t := by
  induction l with
  | nil => intro t; simp [reservationScan_nil]
  | cons v l ih =>
    intro t
    rw [reservationScan_cons]
    by_cases h : t = v
    · simp only [if_pos h]
      exact le_trans (Nat.le_succ t) (ih (t + 1))
    · simp only [if_neg h]
      exact ih t

/-- Over a reservation list sorted in nondecreasing order, the single-pass
scan lands on an address not in the list, and every address between the
start and the landing point is in the list (so the landing point is the
least free address at or above the start). -/
theorem reservationScan_spec (l : List Nat) : ∀ t, l.Pairwise (· ≤ ·) →
    reservationScan l t ∉ l ∧ ∀ x, t ≤ x → x < reservationScan l t → x ∈ l := by
  induction l with
  | nil =>
    intro t _
    refine ⟨by simp, fun x hx hlt => ?_⟩
    rw [reservationScan_nil] at hlt
    omega
  | cons v l ih =>
    intro t hp
    rw [List.pairwise_cons] at hp
    obtain ⟨hv, hp'⟩ := hp
    rw [reservationScan_cons]
    by_cases htv : t = v
    · rw [if_pos htv]
      obtain ⟨h1, h2⟩ := ih (t + 1) hp'
      have hge := reservationScan_ge l (t + 1)
      constructor
      · intro hmem
        rcases List.mem_cons.mp hmem with h | h
        · omega
        · exact h1 h
      · intro x hx hlt
        rcases Nat.eq_or_lt_of_le hx with he | hlt2
        · have hxv : x = v := by omega
          subst hxv
          exact List.mem_cons_self x l
        · exact List.mem_cons_of_mem _ (h2 x hlt2 hlt)
    · rw [if_neg htv]
      obtain ⟨h1, h2⟩ := ih t hp'
      have hge := reservationScan_ge l t
      constructor
      · intro hmem
        rcases List.mem_cons.mp hmem with h | h
        · by_cases hvt : v < t
          · omega
          · have hlt : t < v := by omega
            rcases Nat.eq_or_lt_of_le hge with he | hgt
            · omega
            · have hmt : t ∈ l := h2 t le_rfl hgt
              have := hv t hmt
              omega
        · exact h1 h
      · intro x hx hlt
        exact List.mem_cons_of_mem _ (h2 x hx hlt)

/-- Scanning the ascending run `t, t+1, …, t+n-1` starting at `t` lands at
`t + n`. -/
theorem reservationScan_run (n : Nat) : ∀ t,
    reservationScan ((List.range n).map (fun k => t + k)) t = t + n := by
  induction n with
  | zero => intro t; simp [reservationScan_nil]
  | succ n ih =>
    intro t
    have hsplit : (List.range (n + 1)).map (fun k => t + k)
        = t :: (List.range n).map (fun k => (t + 1) + k) := by
      rw [List.range_succ_eq_map]
      simp only [List.map_cons, List.map_map, Nat.add_zero]
      congr 1
      apply List.map_congr_left
      intro a _
      simp [Function.comp, Nat.succ_eq_add_one]
      omega
    rw [hsplit, reservationScan_cons, if_pos rfl, ih (t + 1)]
    omega

/-- AddReservation leaves the CIDR unchanged. -/
theorem AddReservation_CIDR (s : IPV4Subnet) (name comment : String) :
    (s.AddReservation name comment).CIDR = s.CIDR := rfl

/-- The reserved addresses after an AddReservation call: the scan result is
appended. -/
theorem AddReservation_ReservedIPs (s : IPV4Subnet) (name comment : String) :
    (s.AddReservation name comment).ReservedIPs =
      s.ReservedIPs ++ [reservationScan s.ReservedIPs (s.CIDR.ip + 2)] := by
  simp [IPV4Subnet.AddReservation, IPV4Subnet.ReservedIPs, ipam.Add_two]

/-- After a batch of AddReservation calls on a subnet whose reserved
addresses are exactly the run `base+2, …, base+2+n-1`, the reserved
addresses are the run extended by one address per call. -/
theorem addReservations_run : ∀ (l : List (String × String)) (s : IPV4Subnet) (n : Nat),
    s.ReservedIPs = (List.range n).map (fun k => s.CIDR.ip + 2 + k) →
    (addReservations s l).CIDR = s.CIDR ∧
    (addReservations s l).ReservedIPs =
      (List.range (n + l.length)).map (fun k => s.CIDR.ip + 2 + k) := by
  intro l
  induction l with
  | nil =>
    intro s n h
    exact ⟨rfl, by simpa using h⟩
  | cons nc l ih =>
    intro s n h
    have hscan : reservationScan s.ReservedIPs (s.CIDR.ip + 2) = s.CIDR.ip + 2 + n := by
      rw [h]
      exact reservationScan_run n (s.CIDR.ip + 2)
    have hstep : (s.AddReservation nc.1 nc.2).ReservedIPs =
        (List.range (n + 1)).map (fun k => s.CIDR.ip + 2 + k) := by
      rw [AddReservation_ReservedIPs, hscan, h, List.range_succ]
      simp
    have hrec := ih (s.AddReservation nc.1 nc.2) (n + 1)
      (by rw [hstep, AddReservation_CIDR])
    have hfold : addReservations s (nc :: l)
        = addReservations (s.AddReservation nc.1 nc.2) l := rfl
    rw [hfold]
    rw [AddReservation_CIDR] at hrec
    refine ⟨hrec.1, ?_⟩
    rw [hrec.2]
    have : n + 1 + l.length = n + (nc :: l).length := by simp; omega
    rw [this]

/-- A successful `List.find?` finds the first satisfying element: the list
splits around the result, with every earlier element failing the
predicate. -/
theorem find?_first {α : Type} (p : α → Bool) :
    ∀ (l : List α) (v : α), l.find? p = some v →
      p v = true ∧ ∃ pre post, l = pre ++ v :: post ∧ ∀ u ∈ pre, p u = false := by
  intro l
  induction l with
  | nil => intro v h; simp [List.find?] at h
  | cons a t ih =>
    intro v h
    by_cases hpa : p a
    · rw [List.find?_cons_of_pos t hpa] at h
      obtain rfl : a = v := by injection h
      exact ⟨hpa, [], t, rfl, by simp⟩
    · rw [List.find?_cons_of_neg t hpa] at h
      obtain ⟨hv, pre, post, heq, hpre⟩ := ih v h
      refine ⟨hv, a :: pre, post, by rw [List.cons_append, heq], ?_⟩
      intro u hu
      rcases List.mem_cons.mp hu with h | h
      · subst h
        exact Bool.eq_false_iff.mpr hpa
      · exact hpre u h

/-! Claim theorems. -/

/-- Claim C1, counterexample: in the `10.0.0.0/24` subnet whose reservation
list is `[10.0.0.3, 10.0.0.2]` (built by `AddReservationWithPin` with pins
3 and then 2), `AddReservation` appends address `10.0.0.3` — an address
already present in the reservation list — even though `10.0.0.4` is free,
refuting the claim that the assigned address is the smallest address at
offset ≥ 2 not already present. -/
theorem addReservation_pinned_duplicate :
    (pinnedSubnet.AddReservation "x" "").ReservedIPs
        = [167772163, 167772162, 167772163] ∧
    167772163 ∈ pinnedSubnet.ReservedIPs ∧
    167772162 ∈ pinnedSubnet.ReservedIPs ∧
    167772164 ∉ pinnedSubnet.ReservedIPs := by decide

/-- Claim C1 (amended): for every subnet state whose reservation addresses
are nondecreasing in list order (pinned reservations can break this),
`AddReservation` assigns the smallest address at offset 2 or greater from
the subnet's network address that is not already present in the
reservation list, and appends a new reservation at that address. -/
theorem addReservation_sorted_least_free :
    ∀ (s : IPV4Subnet) (name comment : String),
    s.ReservedIPs.Pairwise (· ≤ ·) →
    ∃ a, (s.AddReservation name comment).IPReservations =
        s.IPReservations ++ [⟨a, name, comment, []⟩] ∧
      a ∉ s.ReservedIPs ∧ s.CIDR.ip + 2 ≤ a ∧
      ∀ x, s.CIDR.ip + 2 ≤ x → x ∉ s.ReservedIPs → a ≤ x := by
  intro s name comment hp
  refine ⟨reservationScan s.ReservedIPs (s.CIDR.ip + 2), ?_, ?_, ?_, ?_⟩
  · simp [IPV4Subnet.AddReservation, ipam.Add_two]
  · exact (reservationScan_spec s.ReservedIPs (s.CIDR.ip + 2) hp).1
  · exact reservationScan_ge s.ReservedIPs (s.CIDR.ip + 2)
  · intro x hx hnx
    by_contra hlt
    push_neg at hlt
    exact hnx ((reservationScan_spec s.ReservedIPs (s.CIDR.ip + 2) hp).2 x hx hlt)

/-- Claim C1, witness: in `10.0.0.0/24` with reservations `[10.0.0.2,
10.0.0.4]` (sorted), the amended theorem applies and yields the least free
address. -/
theorem addReservation_sorted_least_free_witness :
    ∃ a, (sortedSubnet.AddReservation "x" "").IPReservations =
        sortedSubnet.IPReservations ++ [⟨a, "x", "", []⟩] ∧
      a ∉ sortedSubnet.ReservedIPs ∧ sortedSubnet.CIDR.ip + 2 ≤ a ∧
      ∀ x, sortedSubnet.CIDR.ip + 2 ≤ x → x ∉ sortedSubnet.ReservedIPs → a ≤ x :=
  addReservation_sorted_least_free sortedSubnet "x" "" (by decide)

/-- Claim C5: for every subnet (with an IPv4 CIDR base, modelled as the
32-bit address value) and every pin below 256, `AddReservationWithPin`
appends exactly one reservation whose address keeps the three high-order
bytes of the subnet's CIDR base and whose lowest-order byte equals the
pin, regardless of prior reservations. -/
theorem addReservationWithPin_pins_last_byte :
    ∀ (s : IPV4Subnet) (name comment : String) (pin : Nat), pin < 256 →
      (s.AddReservationWithPin name comment pin).IPReservations =
        s.IPReservations ++
          [⟨s.CIDR.ip / 256 * 256 + pin, name, comment, comment.splitOn ","⟩] ∧
      (s.CIDR.ip / 256 * 256 + pin) / 256 = s.CIDR.ip / 256 ∧
      (s.CIDR.ip / 256 * 256 + pin) % 256 = pin := by
  intro s name comment pin hp
  refine ⟨?_, by omega, by omega⟩
  simp [IPV4Subnet.AddReservationWithPin, Nat.mod_eq_of_lt hp]

/-- Claim C5, witness: pinning suffix 50 in the `10.0.0.0/24` subnet that
already holds reservations yields `10.0.0.50` (`167772210`). -/
theorem addReservationWithPin_pins_last_byte_witness :
    ((pinnedSubnet.AddReservationWithPin "fifty" "" 50).IPReservations =
        pinnedSubnet.IPReservations ++
          [⟨pinnedSubnet.CIDR.ip / 256 * 256 + 50, "fifty", "", "".splitOn ","⟩] ∧
      (pinnedSubnet.CIDR.ip / 256 * 256 + 50) / 256 = pinnedSubnet.CIDR.ip / 256 ∧
      (pinnedSubnet.CIDR.ip / 256 * 256 + 50) % 256 = 50) ∧
    pinnedSubnet.CIDR.ip / 256 * 256 + 50 = 167772210 :=
  ⟨addReservationWithPin_pins_last_byte pinnedSubnet "fifty" "" 50 (by decide), by decide⟩

/-- Claim C7: starting from a subnet with an empty reservation list, any
sequence of `AddReservation` calls produces the consecutive run of
addresses `base+2, base+3, …`; in particular the resulting addresses are
pairwise distinct. -/
theorem addReservation_sequence_distinct :
    ∀ (s : IPV4Subnet) (l : List (String × String)), s.IPReservations = [] →
      (addReservations s l).ReservedIPs =
        (List.range l.length).map (fun k => s.CIDR.ip + 2 + k) ∧
      (addReservations s l).ReservedIPs.Pairwise (· ≠ ·) := by
  intro s l h
  have h0 : s.ReservedIPs = (List.range 0).map (fun k => s.CIDR.ip + 2 + k) := by
    simp [IPV4Subnet.ReservedIPs, h]
  have := (addReservations_run l s 0 h0).2
  rw [Nat.zero_add] at this
  refine ⟨this, ?_⟩
  rw [this, List.pairwise_map]
  exact (List.pairwise_lt_range l.length).imp (fun hab => by omega)

/-- Claim C7, witness: in an empty `10.0.0.0/24` subnet, adding
reservations "a", "b", "c" yields addresses `10.0.0.2`, `10.0.0.3`,
`10.0.0.4`, pairwise distinct. -/
theorem addReservation_sequence_distinct_witness :
    (addReservations subnet24 [("a", ""), ("b", ""), ("c", "")]).ReservedIPs
        = [167772162, 167772163, 167772164] ∧
    (addReservations subnet24 [("a", ""), ("b", ""), ("c", "")]).ReservedIPs.Pairwise
        (· ≠ ·) := by
  have h := addReservation_sequence_distinct subnet24 [("a", ""), ("b", ""), ("c", "")] rfl
  exact ⟨by rw [h.1]; decide, h.2⟩

/-- Claim C2, evaluation at the failing input: in `10.0.0.0/24` with
reservations at `10.0.0.4` and `10.0.0.6`, `UpdateDHCPRange false` sets
`DHCPStart` to `10.0.0.6` — an address that is itself reserved and lies in
`[DHCPStart, DHCPEnd]` — contradicting the claim (and the function's own
doc comment, "resets the DHCPStart to exclude all IPReservations").  The
other half of the claim does hold here: `DHCPEnd` is the broadcast address
minus one (`10.0.0.254`). -/
theorem updateDHCPRange_start_on_reservation :
    dhcpSubnet.UpdateDHCPRange false =
      some { dhcpSubnet with DHCPStart := 167772166, DHCPEnd := 167772414 } ∧
    167772166 ∈ dhcpSubnet.ReservedIPs ∧
    ipam.Broadcast dhcpSubnet.CIDR - 1 = 167772414 := by decide

/-- Claim C3, evaluation at the failing input: on the empty `10.0.0.0/29`
network with minimum mask `/29`, `AddBiggestSubnet` returns an error
without attempting anything (its loop runs for `29 ≤ i < 29`, i.e. never),
even though a `/29` allocation — which the claim, and the function's own
error text "tried from /29 to /29", say is attempted — would succeed. -/
theorem addBiggestSubnet_skips_slash29 :
    net29.AddBiggestSubnet 29 "small" 0 = (none, net29) ∧
    ipam.Free (parseCIDR net29.CIDR) 29 [] = some ⟨167772160, 29⟩ ∧
    (net29.AddSubnet 29 "small" 0).1.map (fun s => s.CIDR) = some ⟨167772160, 29⟩ := by
  decide

/-- Claim C4: in the `10.0.0.0/16` network three sequential `/24`
allocations return `10.0.0.0/24`, `10.0.1.0/24`, `10.0.2.0/24` in that
order; and in general, with no siblings allocated, the free-block search
returns the block of the requested size based at the parent's base
address. -/
theorem addSubnet_sequential_allocation :
    (c4step1.1.map (fun s => s.CIDR) = some ⟨167772160, 24⟩ ∧
     c4step2.1.map (fun s => s.CIDR) = some ⟨167772416, 24⟩ ∧
     c4step3.1.map (fun s => s.CIDR) = some ⟨167772672, 24⟩) ∧
    ∀ (P : IPNet) (L : Nat), P.maskLen ≤ L →
      ipam.Free P L [] = some ⟨P.ip, L⟩ := by
  refine ⟨by decide, ?_⟩
  intro P L h
  unfold ipam.Free
  rw [ipam.freeAux]
  simp [ipam.Contains, h]

/-- Claim C4, witness: the free-block search in `10.0.0.0/16` without
siblings returns the aligned `/24` at the base address. -/
theorem addSubnet_sequential_allocation_witness :
    ipam.Free ⟨167772160, 16⟩ 24 [] = some ⟨167772160, 24⟩ :=
  addSubnet_sequential_allocation.2 ⟨167772160, 16⟩ 24 (by decide)

/-- Claim C6: whenever `UpdateDHCPRange true` completes, the resulting
`DHCPEnd` equals the resulting `DHCPStart` plus 200, regardless of the
subnet block's size. -/
theorem updateDHCPRange_supernet_override :
    ∀ (s s' : IPV4Subnet), s.UpdateDHCPRange true = some s' →
      s'.DHCPEnd = s'.DHCPStart + 200 := by
  intro s s' h
  unfold IPV4Subnet.UpdateDHCPRange at h
  by_cases hc : s.ReservedIPs.length > s.UsableHostAddresses
  · simp [hc] at h
  · simp only [hc, if_false, if_true, Option.some.injEq] at h
    subst h
    simp [ipam.Add_200]

/-- Claim C6, witness: on the empty `10.0.0.0/24` subnet the override
yields `DHCPEnd = DHCPStart + 200`. -/
theorem updateDHCPRange_supernet_override_witness :
    ∃ s', subnet24.UpdateDHCPRange true = some s' ∧ s'.DHCPEnd = s'.DHCPStart + 200 :=
  ⟨hackResult, by decide,
    updateDHCPRange_supernet_override subnet24 hackResult (by decide)⟩

/-- Claim C8: `AddSubnetbyCIDR` succeeds exactly when the requested block
is contained in the network's CIDR; on success it appends exactly one new
subnet carrying the requested CIDR, name and VLAN id, and on error the
network (in particular its subnet list) is unchanged. -/
theorem addSubnetbyCIDR_contained :
    ∀ (iNet : IPV4Network) (desiredNet : IPNet) (name : String) (vlanID : Int),
      (ipam.Contains (parseCIDR iNet.CIDR) desiredNet = true →
        ∃ sub, iNet.AddSubnetbyCIDR desiredNet name vlanID =
            (some sub, { iNet with Subnets := iNet.Subnets ++ [sub] }) ∧
          sub.CIDR = desiredNet ∧ sub.Name = name ∧ sub.VlanID = vlanID) ∧
      (ipam.Contains (parseCIDR iNet.CIDR) desiredNet = false →
        iNet.AddSubnetbyCIDR desiredNet name vlanID = (none, iNet)) := by
  intro iNet d name v
  constructor
  · intro h
    refine ⟨{ IPV4Subnet.empty with
        CIDR := d, Name := name, Gateway := ipam.Add d.ip 1, VlanID := v },
      ?_, rfl, rfl, rfl⟩
    simp [IPV4Network.AddSubnetbyCIDR, h]
  · intro h
    simp [IPV4Network.AddSubnetbyCIDR, h]

/-- Claim C8, witness: in `10.0.0.0/16`, requesting `10.0.0.0/24` appends
that subnet, while requesting `11.0.0.0/24` errors and leaves the network
unchanged. -/
theorem addSubnetbyCIDR_contained_witness :
    (∃ sub, net16.AddSubnetbyCIDR ⟨167772160, 24⟩ "good" 2 =
        (some sub, { net16 with Subnets := net16.Subnets ++ [sub] }) ∧
      sub.CIDR = ⟨167772160, 24⟩ ∧ sub.Name = "good" ∧ sub.VlanID = 2) ∧
    net16.AddSubnetbyCIDR ⟨184549376, 24⟩ "bad" 2 = (none, net16) :=
  ⟨(addSubnetbyCIDR_contained net16 ⟨167772160, 24⟩ "good" 2).1 (by decide),
   (addSubnetbyCIDR_contained net16 ⟨184549376, 24⟩ "bad" 2).2 (by decide)⟩

/-- Claim C9: `LookUpSubnet` returns a not-found error when no subnet
matches the name exactly, the unique match with no error, and — when
several subnets match — the first match in insertion order together with
an ambiguity error carrying the match count. -/
theorem lookUpSubnet_matches :
    ∀ (iNet : IPV4Network) (name : String),
      (iNet.Subnets.filter (fun v => v.Name == name) = [] →
        iNet.LookUpSubnet name = (IPV4Subnet.empty, some LookUpError.notFound)) ∧
      (∀ f, iNet.Subnets.filter (fun v => v.Name == name) = [f] →
        iNet.LookUpSubnet name = (f, none)) ∧
      (∀ f rest, iNet.Subnets.filter (fun v => v.Name == name) = f :: rest →
        rest ≠ [] →
        iNet.LookUpSubnet name = (f, some (LookUpError.ambiguous (rest.length + 1)))) := by
  intro iNet name
  by_cases hlen : iNet.Subnets.length = 0
  · have hnil : iNet.Subnets = [] := List.length_eq_zero.mp hlen
    refine ⟨fun _ => ?_, fun f hf => ?_, fun f rest hf _ => ?_⟩
    · simp [IPV4Network.LookUpSubnet, hlen]
    · rw [hnil] at hf; simp at hf
    · rw [hnil] at hf; simp at hf
  · refine ⟨fun h => ?_, fun f hf => ?_, fun f rest hf hne => ?_⟩
    · simp [IPV4Network.LookUpSubnet, hlen, h]
    · simp [IPV4Network.LookUpSubnet, hlen, hf]
    · have hrl : rest.length ≠ 0 := by
        simpa [List.length_eq_zero] using hne
      simp [IPV4Network.LookUpSubnet, hlen, hf, hrl]

/-- Claim C9, witness: zero matches yield not-found, a unique `A` is
returned without error, and two subnets named `A` yield the first one plus
an ambiguity error counting both. -/
theorem lookUpSubnet_matches_witness :
    net16.LookUpSubnet "A" = (IPV4Subnet.empty, some LookUpError.notFound) ∧
    netOneA.LookUpSubnet "A" = (subA, none) ∧
    netTwoA.LookUpSubnet "A" = (subA, some (LookUpError.ambiguous 2)) :=
  ⟨(lookUpSubnet_matches net16 "A").1 (by decide),
   (lookUpSubnet_matches netOneA "A").2.1 subA (by decide),
   (lookUpSubnet_matches netTwoA "A").2.2 subA [subA2] (by decide) (by decide)⟩

/-- Claim C10: `SubnetbyName` returns the first subnet (in insertion
order) whose name matches case-insensitively, and the zero-value subnet
(no error) when none matches; unlike `LookUpSubnet`, which matches
case-sensitively and returns a not-found error — witnessed concretely by a
network whose only subnet is named "NMN" queried with "nmn". -/
theorem subnetbyName_case_insensitive_first :
    ∀ (iNet : IPV4Network) (name : String),
      ((∃ v ∈ iNet.Subnets, eqFold v.Name name = true) →
        ∃ pre post, iNet.Subnets = pre ++ iNet.SubnetbyName name :: post ∧
          eqFold (iNet.SubnetbyName name).Name name = true ∧
          ∀ u ∈ pre, eqFold u.Name name = false) ∧
      ((∀ v ∈ iNet.Subnets, eqFold v.Name name = false) →
        iNet.SubnetbyName name = IPV4Subnet.empty) ∧
      (c10net.SubnetbyName "nmn" = c10sub ∧
        (c10net.LookUpSubnet "nmn").2 = some LookUpError.notFound ∧
        c10net.LookUpSubnet "NMN" = (c10sub, none)) := by
  intro iNet name
  refine ⟨?_, ?_, by decide, by decide, by decide⟩
  · rintro ⟨v, hv, hp⟩
    have hne : iNet.Subnets.find? (fun v => eqFold v.Name name) ≠ none := by
      intro hnone
      rw [List.find?_eq_none] at hnone
      exact (hnone v hv) hp
    obtain ⟨w, hw⟩ := Option.ne_none_iff_exists'.mp hne
    obtain ⟨hpw, pre, post, heq, hpre⟩ :=
      find?_first (fun v => eqFold v.Name name) iNet.Subnets w hw
    have hbn : iNet.SubnetbyName name = w := by
      simp [IPV4Network.SubnetbyName, hw]
    exact ⟨pre, post, by rw [hbn]; exact heq, by rw [hbn]; exact hpw, hpre⟩
  · intro hall
    have hnone : iNet.Subnets.find? (fun v => eqFold v.Name name) = none :=
      List.find?_eq_none.mpr (fun x hx => by simp [hall x hx])
    simp [IPV4Network.SubnetbyName, hnone]

/-- Claim C10, witness: querying "nmn" in the network whose only subnet is
named "NMN" finds that subnet as the first case-insensitive match. -/
theorem subnetbyName_case_insensitive_first_witness :
    ∃ pre post, c10net.Subnets = pre ++ c10net.SubnetbyName "nmn" :: post ∧
      eqFold (c10net.SubnetbyName "nmn").Name "nmn" = true ∧
      ∀ u ∈ pre, eqFold u.Name "nmn" = false :=
  (subnetbyName_case_insensitive_first c10net "nmn").1 ⟨c10sub, by decide, by decide⟩

end CsmCommon
